import Mathlib

/-!
Shallow embedding of the candidate selection and ranking pipeline of the
AI-Based Recipe Generator repository: `src/utils/preprocessing.py`
(ingredient normalization with alias resolution) and `src/recommender.py`
(overlap scoring, rule-based filtering, candidate selection, recipe
scoring).  Strings are modelled over their character lists with
ASCII-faithful versions of the Python string operations used by the code
(`str.lower`, `str.strip`, `re.sub`, `re.split`, `str.split`); real
arithmetic of the scoring functions is modelled exactly by `ℚ`; the
`ZeroDivisionError` that Python raises on integer division by zero is
modelled by an `Option` result.
-/

/-- The character class of Python's regex `\s` (ASCII range):
space, tab, newline, carriage return, vertical tab, form feed. -/
def pyIsSpace (c : Char) : Bool :=
  c == ' ' || c == '\t' || c == '\n' || c == '\r' || c == '\x0b' || c == '\x0c'

/-- ASCII lowering of a single character, as Python's `str.lower` acts on
ASCII text. -/
def pyLowerChar (c : Char) : Char :=
  if 'A' ≤ c && c ≤ 'Z' then Char.ofNat (c.toNat + 32) else c

/-- `str.lower` on a whole string (ASCII). -/
def pyLowerStr (s : String) : String :=
  String.mk (s.data.map pyLowerChar)

/-- `str.strip()`: remove leading and trailing whitespace. -/
def pyStrip (cs : List Char) : List Char :=
  ((cs.dropWhile pyIsSpace).reverse.dropWhile pyIsSpace).reverse

/-- Helper for `pyCollapse`: the boolean records whether the previous
character was part of a whitespace run already emitted as a space. -/
def pyCollapseAux : Bool → List Char → List Char
  | _, [] => []
  | prevSpace, c :: cs =>
    if pyIsSpace c then
      if prevSpace then pyCollapseAux true cs
      else ' ' :: pyCollapseAux true cs
    else c :: pyCollapseAux false cs

/-- `re.sub(r'\s+', ' ', s)`: replace every maximal whitespace run by a
single space. -/
def pyCollapse (cs : List Char) : List Char :=
  pyCollapseAux false cs

/-- Characters kept by `re.sub(r'[^a-z0-9\s]', '', s)`. -/
def keepChar (c : Char) : Bool :=
  ('a' ≤ c && c ≤ 'z') || ('0' ≤ c && c ≤ '9') || pyIsSpace c

/-- `re.sub(r'[^a-z0-9\s]', '', s)`: drop every character that is not a
lowercase letter, a digit or whitespace. -/
def pyRemoveSpecial (cs : List Char) : List Char :=
  cs.filter keepChar

/-- `re.split(r'...', s)` for a single-character alternation class: split a
character list at every delimiter character, keeping empty fragments. -/
def pySplitAny (p : Char → Bool) : List Char → List (List Char)
  | [] => [[]]
  | c :: cs =>
    match pySplitAny p cs with
    | [] => [[]]
    | g :: gs => if p c then [] :: g :: gs else (c :: g) :: gs

/-- `INGREDIENT_ALIASES` from `src/utils/preprocessing.py`: the fixed
mapping from canonical ingredient name to its known alternate spellings,
in the insertion order of the Python dict. -/
def INGREDIENT_ALIASES : List (String × List String) :=
  [("tomato", ["tomatoes", "tomatoe", "tamatar"]),
   ("onion", ["onions", "pyaz"]),
   ("garlic", ["garlics", "lahsun"]),
   ("ginger", ["gingers", "adrak"]),
   ("chicken", ["chickens", "murgi", "murgh"]),
   ("rice", ["rices", "basmati", "jasmine"]),
   ("oil", ["oils", "ghee", "butter"]),
   ("salt", ["salts", "namak"]),
   ("pepper", ["peppers", "black pepper", "kali mirch"]),
   ("cumin", ["cumins", "jeera"]),
   ("coriander", ["cilantro", "dhania"]),
   ("turmeric", ["haldi"]),
   ("chili", ["chilies", "red chili", "lal mirch"]),
   ("milk", ["milks", "doodh"]),
   ("yogurt", ["yoghurt", "curd", "dahi"]),
   ("flour", ["flours", "maida"]),
   ("sugar", ["sugars", "cheeni"]),
   ("water", ["waters"]),
   ("lemon", ["lemons", "lime", "nimbu"]),
   ("potato", ["potatoes", "aloo"]),
   ("carrot", ["carrots", "gajar"]),
   ("spinach", ["spinaches", "palak"]),
   ("green beans", ["beans", "string beans", "lobiya"]),
   ("bell pepper", ["capsicum", "simla mirch"]),
   ("mushroom", ["mushrooms", "khumbh"]),
   ("peas", ["green peas", "matar"]),
   ("paneer", ["cottage cheese", "indian cheese"]),
   ("lentils", ["dal", "daal", "lens"]),
   ("chickpeas", ["chana", "garbanzo"])]

/-- The cleaning steps of `normalize_ingredient` before alias resolution:
`ingredient.lower().strip()`, then collapse whitespace runs, then remove
special characters. -/
def cleanFragment (ingredient : String) : String :=
  String.mk (pyRemoveSpecial (pyCollapse (pyStrip (pyLowerStr ingredient).data)))

/-- The alias-resolution loop of `normalize_ingredient`: scan the table in
order; on the first entry whose canonical name or one of whose (lowered)
aliases equals the cleaned fragment, return that canonical name; otherwise
return the fragment unchanged. -/
def resolveAlias (normalized : String) : List (String × List String) → String
  | [] => normalized
  | (canonical, aliases) :: rest =>
    if normalized == canonical then canonical
    else if aliases.any (fun a => normalized == pyLowerStr a) then canonical
    else resolveAlias normalized rest

/-- `normalize_ingredient` from `src/utils/preprocessing.py`. -/
def normalize_ingredient (ingredient : String) : String :=
  resolveAlias (cleanFragment ingredient) INGREDIENT_ALIASES

/-- `re.split(r'[,\n]', ingredients_text)` of `normalize_ingredients`. -/
def rawFragments (text : String) : List String :=
  (pySplitAny (fun c => c == ',' || c == '\n') text.data).map String.mk

/-- The list comprehension of `normalize_ingredients`: keep fragments that
are non-blank after stripping, and normalize each. -/
def preNormalized (text : String) : List String :=
  ((rawFragments text).filter (fun s => !(pyStrip s.data).isEmpty)).map normalize_ingredient

/-- The duplicate-removal loop of `normalize_ingredients`: keep an element
when it is non-empty and not yet seen, preserving order. -/
def dedupSeen (seen : List String) : List String → List String
  | [] => []
  | ing :: rest =>
    if ing ≠ "" ∧ ing ∉ seen then ing :: dedupSeen (ing :: seen) rest
    else dedupSeen seen rest

/-- `normalize_ingredients` from `src/utils/preprocessing.py`. -/
def normalize_ingredients (ingredients_text : String) : List String :=
  dedupSeen [] (preNormalized ingredients_text)

/-- One catalog recipe row, with the fields `src/recommender.py` reads.
The spec fixes `cooking_time` as integer minutes. -/
structure RecipeRecord where
  recipe_name : String
  ingredients : String
  cooking_time : ℤ
  meal_type : String
  cuisine : String
  instructions : String
deriving DecidableEq

/-- The `recipe_ing_list` local of `calculate_ingredient_overlap`:
`[ing.strip().lower() for ing in recipe_ingredients.split(',')]`. -/
def overlapPieces (recipe_ingredients : String) : List String :=
  (pySplitAny (fun c => c == ',') recipe_ingredients.data).map
    (fun cs => pyLowerStr (String.mk (pyStrip cs)))

/-- `calculate_ingredient_overlap` from `src/recommender.py`: split the
recipe-ingredient string on commas, strip and lower each piece, and return
`100 * matched pieces / total pieces` (the guard for an empty piece list
is kept even though `split` always yields at least one piece). -/
def calculate_ingredient_overlap (recipe_ingredients : String) (user_ingredients : List String) : ℚ :=
  if (overlapPieces recipe_ingredients).length = 0 then 0
  else
    (((overlapPieces recipe_ingredients).countP
        (fun i => user_ingredients.contains i) : ℚ) /
      ((overlapPieces recipe_ingredients).length : ℚ)) * 100

/-- Descending order on overlap-annotated records: the sort key of
`sort_values('ingredient_overlap', ascending=False)`. -/
def overlapOrder (a b : RecipeRecord × ℚ) : Prop :=
  b.2 ≤ a.2

instance : DecidableRel overlapOrder :=
  fun a b => inferInstanceAs (Decidable (b.2 ≤ a.2))

instance : IsTotal (RecipeRecord × ℚ) overlapOrder :=
  ⟨fun a b => le_total b.2 a.2⟩

instance : IsTrans (RecipeRecord × ℚ) overlapOrder :=
  ⟨fun _ _ _ h1 h2 => le_trans h2 h1⟩

/-- `filter_recipes` from `src/recommender.py`: successive narrowing by
cooking time, case-insensitive meal type, case-insensitive cuisine, then
annotation with the ingredient overlap, the overlap threshold
`min_overlap * 100`, and a descending sort on the overlap score.  The
catalog is a list of records; annotation is modelled by pairing each
surviving record with its overlap. -/
def filter_recipes (recipes_df : List RecipeRecord) (user_ingredients : List String)
    (max_cooking_time : ℤ) (meal_type : String) (cuisine : String)
    (min_overlap : ℚ) : List (RecipeRecord × ℚ) :=
  List.insertionSort overlapOrder
    ((((((recipes_df.filter
        (fun r => decide (r.cooking_time ≤ max_cooking_time))).filter
        (fun r => pyLowerStr r.meal_type == pyLowerStr meal_type)).filter
        (fun r => pyLowerStr r.cuisine == pyLowerStr cuisine)).map
        (fun r => (r, calculate_ingredient_overlap r.ingredients user_ingredients))).filter
        (fun p => decide (min_overlap * 100 ≤ p.2))))

/-- `get_top_candidates` from `src/recommender.py`: take the first `top_n`
rows of the (already filtered and sorted) frame.  The projection to a
plain dictionary keeps every field plus the overlap annotation, so it is
modelled as the annotated pair itself. -/
def get_top_candidates (recipes_df : List (RecipeRecord × ℚ)) (top_n : ℕ) :
    List (RecipeRecord × ℚ) :=
  recipes_df.take top_n

/-- `score_recipe` from `src/recommender.py`.  Python raises
`ZeroDivisionError` when `cooking_time_limit` is zero; this is modelled by
`none`.  `0.4`, `0.3` and the other literals are exact in `ℚ`. -/
def score_recipe (recipe : RecipeRecord) (user_ingredients : List String)
    (cooking_time_limit : ℤ) : Option ℚ :=
  if cooking_time_limit = 0 then none
  else
    let ingredient_overlap := calculate_ingredient_overlap recipe.ingredients user_ingredients
    let ingredient_score := min ingredient_overlap 100 * (0.4 : ℚ)
    let time_efficiency := ((recipe.cooking_time : ℚ) / (cooking_time_limit : ℚ)) * 100
    let time_score := max 0 (100 - time_efficiency) * (0.3 : ℚ)
    let base_score : ℚ := 30
    some (min (ingredient_score + time_score + base_score) 100)

/-- Evaluation helper: reduce a concrete overlap computation to rational
arithmetic once the string-level pieces, match count and piece count have
been computed. -/
theorem overlap_eval {ri : String} {u : List String} (L : List String) (m n : ℕ)
    (hL : overlapPieces ri = L)
    (hm : L.countP (fun i => u.contains i) = m)
    (hn : L.length = n) :
    calculate_ingredient_overlap ri u = if n = 0 then 0 else ((m : ℚ) / (n : ℚ)) * 100 := by
  unfold calculate_ingredient_overlap
  rw [hL, hm, hn]

/-- Evaluation helper: the formula `score_recipe` computes for a nonzero
time limit, with the overlap already evaluated. -/
theorem score_eval (r : RecipeRecord) (u : List String) (tl : ℤ) (ov : ℚ)
    (hov : calculate_ingredient_overlap r.ingredients u = ov) (htl : tl ≠ 0) :
    score_recipe r u tl =
      some (min (min ov 100 * (0.4 : ℚ) +
        max 0 (100 - ((r.cooking_time : ℚ) / (tl : ℚ)) * 100) * (0.3 : ℚ) + 30) 100) := by
  simp only [score_recipe, if_neg htl, hov]

example : normalize_ingredients "Tomatoes, onion, tomato" = ["tomato", "onion"] := by decide
example : normalize_ingredients "Pyaz" = ["onion"] := by decide
example : normalize_ingredients "red onion" = ["red onion"] := by decide
example : normalize_ingredients "a - b" = ["a  b"] := by decide
example : calculate_ingredient_overlap "tomato, onion, garlic" ["tomato", "onion"] = 200 / 3 := by
  rw [overlap_eval ["tomato", "onion", "garlic"] 2 3 (by decide) (by decide) (by decide)]
  norm_num
example : calculate_ingredient_overlap "" [""] = 100 := by
  rw [overlap_eval [""] 1 1 (by decide) (by decide) (by decide)]
  norm_num
example : calculate_ingredient_overlap "" ["tomato"] = 0 := by
  rw [overlap_eval [""] 0 1 (by decide) (by decide) (by decide)]
  norm_num
example : score_recipe ⟨"r", "x", 10, "m", "c", "i"⟩ [] (-5) = some 100 := by
  rw [score_eval _ _ _ 0 (by rw [overlap_eval ["x"] 0 1 (by decide) (by decide) (by decide)]; norm_num)
    (by decide)]
  norm_num
example : score_recipe ⟨"r", "x", 10, "m", "c", "i"⟩ [] 0 = none := by decide
example : score_recipe ⟨"r", "x", 10, "m", "c", "i"⟩ [] 10 = some 30 := by
  rw [score_eval _ _ _ 0 (by rw [overlap_eval ["x"] 0 1 (by decide) (by decide) (by decide)]; norm_num)
    (by decide)]
  norm_num

/-- The spec-side description of alias resolution (§4.1 step 4 of the
spec): look for the first table entry whose canonical name or lowered
alias list matches the fragment exactly; replace by that canonical, else
return the fragment unchanged. -/
def resolveAliasSpec (normalized : String) (table : List (String × List String)) : String :=
  match table.find? (fun e => normalized == e.1 || e.2.any (fun a => normalized == pyLowerStr a)) with
  | some e => e.1
  | none => normalized

theorem resolveAlias_eq_spec (s : String) :
    ∀ table : List (String × List String), resolveAlias s table = resolveAliasSpec s table := by
  intro table
  induction table with
  | nil => rfl
  | cons e rest ih =>
    obtain ⟨canonical, aliases⟩ := e
    simp only [resolveAlias, resolveAliasSpec, List.find?]
    cases h1 : (s == canonical) with
    | true => simp [h1]
    | false =>
      cases h2 : aliases.any (fun a => s == pyLowerStr a) with
      | true => simp [h1, h2]
      | false =>
        simp only [h1, h2, Bool.or_self, if_false]
        exact ih

theorem dedupSeen_sublist : ∀ (seen l : List String), List.Sublist (dedupSeen seen l) l
  | _, [] => List.Sublist.refl _
  | seen, ing :: rest => by
    unfold dedupSeen
    by_cases h : ing ≠ "" ∧ ing ∉ seen
    · rw [if_pos h]
      exact (dedupSeen_sublist _ rest).cons₂ _
    · rw [if_neg h]
      exact (dedupSeen_sublist _ rest).cons _

theorem dedupSeen_not_mem_seen : ∀ (seen l : List String) (x : String),
    x ∈ dedupSeen seen l → x ∉ seen
  | seen, [], x => by simp [dedupSeen]
  | seen, ing :: rest, x => by
    unfold dedupSeen
    by_cases h : ing ≠ "" ∧ ing ∉ seen
    · rw [if_pos h]
      intro hx
      rcases List.mem_cons.mp hx with rfl | hx
      · exact h.2
      · intro hseen
        exact dedupSeen_not_mem_seen _ _ _ hx (List.mem_cons_of_mem _ hseen)
    · rw [if_neg h]
      exact dedupSeen_not_mem_seen _ _ _

theorem dedupSeen_nodup : ∀ (seen l : List String), (dedupSeen seen l).Nodup
  | _, [] => List.nodup_nil
  | seen, ing :: rest => by
    unfold dedupSeen
    by_cases h : ing ≠ "" ∧ ing ∉ seen
    · rw [if_pos h]
      refine List.nodup_cons.mpr ⟨fun hmem => ?_, dedupSeen_nodup _ rest⟩
      exact dedupSeen_not_mem_seen _ _ _ hmem (List.mem_cons_self _ _)
    · rw [if_neg h]
      exact dedupSeen_nodup seen rest

theorem dedupSeen_mem_of : ∀ (seen l : List String) (x : String),
    x ∈ l → x ≠ "" → x ∉ seen → x ∈ dedupSeen seen l
  | _, [], x => by simp
  | seen, ing :: rest, x => by
    intro hx hne hseen
    unfold dedupSeen
    by_cases hxi : x = ing
    · subst hxi
      rw [if_pos ⟨hne, hseen⟩]
      exact List.mem_cons_self _ _
    · rcases List.mem_cons.mp hx with rfl | hx
      · exact absurd rfl hxi
      by_cases h : ing ≠ "" ∧ ing ∉ seen
      · rw [if_pos h]
        refine List.mem_cons_of_mem _ ?_
        exact dedupSeen_mem_of _ _ _ hx hne (by
          intro hmem
          rcases List.mem_cons.mp hmem with rfl | hmem
          · exact hxi rfl
          · exact hseen hmem)
      · rw [if_neg h]
        exact dedupSeen_mem_of _ _ _ hx hne hseen

/-- C2: for every input string, `normalize_ingredients` returns a list
with no duplicate tokens, preserving the order of first occurrence of each
(non-empty) normalized token, and in particular
`normalize_ingredients "Tomatoes, onion, tomato" = ["tomato", "onion"]`. -/
theorem normalize_ingredients_dedup_first_order :
    (∀ text : String,
      (normalize_ingredients text).Nodup ∧
      List.Sublist (normalize_ingredients text) (preNormalized text) ∧
      ∀ x ∈ preNormalized text, x ≠ "" → x ∈ normalize_ingredients text) ∧
    normalize_ingredients "Tomatoes, onion, tomato" = ["tomato", "onion"] := by
  refine ⟨fun text => ⟨dedupSeen_nodup [] _, dedupSeen_sublist [] _,
    fun x hx hne => dedupSeen_mem_of [] _ x hx hne (by simp)⟩, by decide⟩

theorem normalize_ingredients_dedup_first_order_witness :
    "tomato" ∈ normalize_ingredients "Tomatoes, onion, tomato" :=
  (normalize_ingredients_dedup_first_order.1 "Tomatoes, onion, tomato").2.2 "tomato"
    (by decide) (by decide)

/-- C6: alias resolution is exact-string match over the table in its fixed
insertion order with the first matching canonical winning (the loop is
equivalent to a first-match lookup), and in particular
`normalize_ingredients "Pyaz" = ["onion"]` while `"red onion"` stays
unchanged. -/
theorem alias_resolution_exact :
    (∀ (normalized : String) (table : List (String × List String)),
      resolveAlias normalized table = resolveAliasSpec normalized table) ∧
    normalize_ingredients "Pyaz" = ["onion"] ∧
    normalize_ingredients "red onion" = ["red onion"] :=
  ⟨fun s table => resolveAlias_eq_spec s table, by decide, by decide⟩

/-- C10: the alias table has 29 canonical keys and each of them is a fixed
point of `normalize_ingredient`: no canonical name is captured by an
earlier entry's alias list. -/
theorem canonical_names_fixed_points :
    INGREDIENT_ALIASES.length = 29 ∧
    ∀ e ∈ INGREDIENT_ALIASES, normalize_ingredient e.1 = e.1 :=
  ⟨by decide, by decide⟩

theorem canonical_names_fixed_points_witness :
    normalize_ingredient "pepper" = "pepper" :=
  canonical_names_fixed_points.2 ("pepper", ["peppers", "black pepper", "kali mirch"])
    (by decide)

/-- Characters the original claim allows in a normalized token. -/
def allowedChar (c : Char) : Bool :=
  ('a' ≤ c && c ≤ 'z') || ('0' ≤ c && c ≤ '9') || c == ' '

/-- No run of two or more consecutive spaces. -/
def noDoubleSpace : List Char → Bool
  | c1 :: c2 :: rest => !(c1 == ' ' && c2 == ' ') && noDoubleSpace (c2 :: rest)
  | _ => true

/-- The well-formedness predicate the original claim asserts of every
output token: allowed characters only, no leading or trailing whitespace,
no doubled spaces. -/
def tokenWellFormed (t : String) : Bool :=
  t.data.all allowedChar && (pyStrip t.data == t.data) && noDoubleSpace t.data

theorem mem_pyCollapseAux : ∀ (b : Bool) (l : List Char) (c : Char),
    c ∈ pyCollapseAux b l → c = ' ' ∨ pyIsSpace c = false
  | _, [], _ => by simp [pyCollapseAux]
  | b, a :: l, c => by
    unfold pyCollapseAux
    cases ha : pyIsSpace a with
    | true =>
      cases b with
      | true =>
        simp only [ha, if_true]
        exact mem_pyCollapseAux true l c
      | false =>
        simp only [ha, if_true, Bool.false_eq_true, if_false, List.mem_cons]
        rintro (rfl | h)
        · exact Or.inl rfl
        · exact mem_pyCollapseAux true l c h
    | false =>
      simp only [ha, Bool.false_eq_true, if_false, List.mem_cons]
      rintro (rfl | h)
      · exact Or.inr ha
      · exact mem_pyCollapseAux false l c h

theorem cleanFragment_chars (s : String) :
    ∀ c ∈ (cleanFragment s).data, allowedChar c = true := by
  intro c hc
  have hc' : c ∈ pyRemoveSpecial (pyCollapse (pyStrip (pyLowerStr s).data)) := hc
  rw [pyRemoveSpecial, List.mem_filter] at hc'
  obtain ⟨hmem, hkeep⟩ := hc'
  rw [keepChar] at hkeep
  rcases Bool.or_eq_true_iff.mp hkeep with h | hsp
  · rw [allowedChar, h]
    rfl
  · rcases mem_pyCollapseAux false _ c hmem with rfl | hns
    · rw [allowedChar]
      simp
    · rw [hns] at hsp
      exact absurd hsp (by simp)

theorem alias_table_canonical_chars :
    ∀ e ∈ INGREDIENT_ALIASES, ∀ c ∈ (e.1 : String).data, allowedChar c = true := by decide

theorem resolveAlias_result_cases (s : String) :
    ∀ table : List (String × List String),
      resolveAlias s table = s ∨ ∃ e ∈ table, resolveAlias s table = e.1
  | [] => Or.inl rfl
  | (canonical, aliases) :: rest => by
    unfold resolveAlias
    by_cases h1 : (s == canonical) = true
    · rw [if_pos h1]
      exact Or.inr ⟨(canonical, aliases), List.mem_cons_self _ _, rfl⟩
    · rw [if_neg h1]
      by_cases h2 : (aliases.any fun a => s == pyLowerStr a) = true
      · rw [if_pos h2]
        exact Or.inr ⟨(canonical, aliases), List.mem_cons_self _ _, rfl⟩
      · rw [if_neg h2]
        rcases resolveAlias_result_cases s rest with h | ⟨e, he, h⟩
        · exact Or.inl h
        · exact Or.inr ⟨e, List.mem_cons_of_mem _ he, h⟩

theorem normalize_ingredient_chars (s : String) :
    ∀ c ∈ (normalize_ingredient s).data, allowedChar c = true := by
  intro c hc
  unfold normalize_ingredient at hc
  rcases resolveAlias_result_cases (cleanFragment s) INGREDIENT_ALIASES with h | ⟨e, he, h⟩
  · rw [h] at hc
    exact cleanFragment_chars s c hc
  · rw [h] at hc
    exact alias_table_canonical_chars e he c hc

/-- C9 counterexample: on input `"a - b"` the removal of the dash happens
after whitespace collapsing, so the output token `"a  b"` contains a run
of two spaces and violates the claimed well-formedness. -/
theorem normalized_token_shape_counterexample :
    normalize_ingredients "a - b" = ["a  b"] ∧ tokenWellFormed "a  b" = false :=
  ⟨by decide, by decide⟩

/-- C9 (amended): every token output by `normalize_ingredients` consists
only of characters in the set a-z, 0-9, space; the whitespace-shape part
of the original claim (no leading/trailing space, no doubled spaces) does
not hold because special characters are removed after whitespace is
collapsed. -/
theorem normalized_token_charset (text : String) :
    ∀ t ∈ normalize_ingredients text, ∀ c ∈ t.data, allowedChar c = true := by
  intro t ht
  have hsub : List.Sublist (normalize_ingredients text) (preNormalized text) :=
    dedupSeen_sublist [] _
  have ht' : t ∈ preNormalized text := hsub.mem ht
  rw [preNormalized, List.mem_map] at ht'
  obtain ⟨frag, _, rfl⟩ := ht'
  exact normalize_ingredient_chars frag

theorem normalized_token_charset_witness : allowedChar 't' = true :=
  normalized_token_charset "Tomatoes" "tomato" (by decide) 't' (by decide)

theorem mem_filter_recipes {df : List RecipeRecord} {u : List String} {maxT : ℤ}
    {mt cu : String} {mo : ℚ} {p : RecipeRecord × ℚ} :
    p ∈ filter_recipes df u maxT mt cu mo ↔
      p.1 ∈ df ∧ p.1.cooking_time ≤ maxT ∧
      pyLowerStr p.1.meal_type = pyLowerStr mt ∧
      pyLowerStr p.1.cuisine = pyLowerStr cu ∧
      p.2 = calculate_ingredient_overlap p.1.ingredients u ∧
      mo * 100 ≤ p.2 := by
  unfold filter_recipes
  rw [List.mem_insertionSort]
  simp only [List.mem_filter, List.mem_map, decide_eq_true_eq, beq_iff_eq]
  constructor
  · rintro ⟨⟨r, ⟨⟨⟨hr, h1⟩, h2⟩, h3⟩, rfl⟩, h4⟩
    exact ⟨hr, h1, h2, h3, rfl, h4⟩
  · rintro ⟨hr, h1, h2, h3, h5, h4⟩
    obtain ⟨r, ov⟩ := p
    simp only at hr h1 h2 h3 h5 h4 ⊢
    subst h5
    exact ⟨⟨r, ⟨⟨⟨hr, h1⟩, h2⟩, h3⟩, rfl⟩, h4⟩

theorem filter_recipes_sorted (df : List RecipeRecord) (u : List String) (maxT : ℤ)
    (mt cu : String) (mo : ℚ) :
    List.Sorted overlapOrder (filter_recipes df u maxT mt cu mo) :=
  List.sorted_insertionSort overlapOrder _

/-- C1: every record output by `filter_recipes` satisfies the cooking-time
bound, case-insensitive meal-type and cuisine equality with the query, and
the overlap threshold `min_overlap * 100`; and the output is sorted in
descending order of its annotated overlap score. -/
theorem filter_recipes_spec (df : List RecipeRecord) (u : List String) (maxT : ℤ)
    (mt cu : String) (mo : ℚ) :
    (∀ p ∈ filter_recipes df u maxT mt cu mo,
      p.1.cooking_time ≤ maxT ∧
      pyLowerStr p.1.meal_type = pyLowerStr mt ∧
      pyLowerStr p.1.cuisine = pyLowerStr cu ∧
      p.2 = calculate_ingredient_overlap p.1.ingredients u ∧
      mo * 100 ≤ p.2) ∧
    List.Sorted overlapOrder (filter_recipes df u maxT mt cu mo) := by
  refine ⟨fun p hp => ?_, filter_recipes_sorted df u maxT mt cu mo⟩
  obtain ⟨_, h1, h2, h3, h5, h4⟩ := mem_filter_recipes.mp hp
  exact ⟨h1, h2, h3, h5, h4⟩

theorem filter_recipes_spec_witness :
    ((⟨"Pasta", "pasta, tomato", 20, "Dinner", "Italian", "Cook."⟩ : RecipeRecord).cooking_time ≤ 30)
      ∧ (6 / 10 : ℚ) * 100 ≤ 100 := by
  have hmem : ((⟨"Pasta", "pasta, tomato", 20, "Dinner", "Italian", "Cook."⟩ : RecipeRecord),
      (100 : ℚ)) ∈
      filter_recipes [⟨"Pasta", "pasta, tomato", 20, "Dinner", "Italian", "Cook."⟩]
        ["pasta", "tomato"] 30 "dinner" "italian" (6 / 10) := by
    rw [mem_filter_recipes]
    refine ⟨by decide, by decide, by decide, by decide, ?_, by norm_num⟩
    rw [overlap_eval ["pasta", "tomato"] 2 2 (by decide) (by decide) (by decide)]
    norm_num
  have h := (filter_recipes_spec [⟨"Pasta", "pasta, tomato", 20, "Dinner", "Italian", "Cook."⟩]
    ["pasta", "tomato"] 30 "dinner" "italian" (6 / 10)).1 _ hmem
  exact ⟨h.1, h.2.2.2.2⟩

theorem list_map_id_of_mem {α : Type} (l : List α) (f : α → α) (h : ∀ x ∈ l, f x = x) :
    l.map f = l := by
  induction l with
  | nil => rfl
  | cons a l ih =>
    rw [List.map_cons, h a (List.mem_cons_self _ _),
      ih (fun x hx => h x (List.mem_cons_of_mem _ hx))]

theorem filter_recipes_of_consistent (u : List String) (maxT : ℤ) (mt cu : String)
    (mo : ℚ) (l : List (RecipeRecord × ℚ))
    (hl : ∀ p ∈ l, p.1.cooking_time ≤ maxT ∧
      pyLowerStr p.1.meal_type = pyLowerStr mt ∧
      pyLowerStr p.1.cuisine = pyLowerStr cu ∧
      p.2 = calculate_ingredient_overlap p.1.ingredients u ∧
      mo * 100 ≤ p.2)
    (hsort : List.Sorted overlapOrder l) :
    filter_recipes (l.map Prod.fst) u maxT mt cu mo = l := by
  have h1 : (l.map Prod.fst).filter (fun r => decide (r.cooking_time ≤ maxT)) =
      l.map Prod.fst := by
    refine List.filter_eq_self.mpr ?_
    intro r hr
    obtain ⟨p, hp, rfl⟩ := List.mem_map.mp hr
    exact decide_eq_true (hl p hp).1
  have h2 : (l.map Prod.fst).filter (fun r => pyLowerStr r.meal_type == pyLowerStr mt) =
      l.map Prod.fst := by
    refine List.filter_eq_self.mpr ?_
    intro r hr
    obtain ⟨p, hp, rfl⟩ := List.mem_map.mp hr
    exact beq_iff_eq.mpr (hl p hp).2.1
  have h3 : (l.map Prod.fst).filter (fun r => pyLowerStr r.cuisine == pyLowerStr cu) =
      l.map Prod.fst := by
    refine List.filter_eq_self.mpr ?_
    intro r hr
    obtain ⟨p, hp, rfl⟩ := List.mem_map.mp hr
    exact beq_iff_eq.mpr (hl p hp).2.2.1
  have hmap : (l.map Prod.fst).map
      (fun r => (r, calculate_ingredient_overlap r.ingredients u)) = l := by
    rw [List.map_map]
    refine list_map_id_of_mem l _ ?_
    intro p hp
    obtain ⟨r, ov⟩ := p
    have hov := (hl _ hp).2.2.2.1
    simp only [Function.comp_apply] at hov ⊢
    rw [← hov]
  have h4 : l.filter (fun p => decide (mo * 100 ≤ p.2)) = l := by
    refine List.filter_eq_self.mpr ?_
    intro p hp
    exact decide_eq_true (hl p hp).2.2.2.2
  unfold filter_recipes
  rw [h1, h2, h3, hmap, h4, hsort.insertionSort_eq]

/-- C8: `filter_recipes` is idempotent under re-application: filtering the
records of an already-filtered result with the same user ingredients,
time bound, meal type, cuisine and overlap threshold returns exactly the
same annotated, sorted sequence. -/
theorem filter_recipes_idempotent (df : List RecipeRecord) (u : List String) (maxT : ℤ)
    (mt cu : String) (mo : ℚ) :
    filter_recipes ((filter_recipes df u maxT mt cu mo).map Prod.fst) u maxT mt cu mo =
      filter_recipes df u maxT mt cu mo := by
  refine filter_recipes_of_consistent u maxT mt cu mo _ ?_
    (filter_recipes_sorted df u maxT mt cu mo)
  intro p hp
  obtain ⟨_, h1, h2, h3, h5, h4⟩ := mem_filter_recipes.mp hp
  exact ⟨h1, h2, h3, h5, h4⟩

theorem overlap_nonneg (ri : String) (u : List String) :
    0 ≤ calculate_ingredient_overlap ri u := by
  unfold calculate_ingredient_overlap
  split
  · exact le_refl 0
  · positivity

/-- C4: for a positive time limit (and positive cooking time, as the spec
assumes of every record), `score_recipe` returns exactly
`min(min(overlap,100)*0.4 + max(0, 100 - (cooking_time/timeLimit)*100)*0.3 + 30, 100)`;
the score is always between 30 and 100, and equals 30 when the overlap is
0 and the cooking time consumes the whole time limit. -/
theorem score_recipe_formula (r : RecipeRecord) (u : List String) (tl : ℤ)
    (htl : 0 < tl) (hct : 0 < r.cooking_time) :
    ∃ q, score_recipe r u tl = some q ∧
      q = min (min (calculate_ingredient_overlap r.ingredients u) 100 * (0.4 : ℚ) +
            max 0 (100 - ((r.cooking_time : ℚ) / (tl : ℚ)) * 100) * (0.3 : ℚ) + 30) 100 ∧
      30 ≤ q ∧ q ≤ 100 ∧
      (calculate_ingredient_overlap r.ingredients u = 0 → tl ≤ r.cooking_time → q = 30) := by
  have htl0 : tl ≠ 0 := ne_of_gt htl
  refine ⟨_, score_eval r u tl _ rfl htl0, rfl, ?_, min_le_right _ _, ?_⟩
  · have hov : 0 ≤ calculate_ingredient_overlap r.ingredients u := overlap_nonneg _ _
    have hA : 0 ≤ min (calculate_ingredient_overlap r.ingredients u) 100 * (0.4 : ℚ) := by
      have : (0 : ℚ) ≤ min (calculate_ingredient_overlap r.ingredients u) 100 :=
        le_min hov (by norm_num)
      nlinarith
    have hB : 0 ≤ max 0 (100 - ((r.cooking_time : ℚ) / (tl : ℚ)) * 100) * (0.3 : ℚ) := by
      have : (0 : ℚ) ≤ max 0 (100 - ((r.cooking_time : ℚ) / (tl : ℚ)) * 100) :=
        le_max_left _ _
      nlinarith
    refine le_min (by linarith) (by norm_num)
  · intro hov0 htlc
    rw [hov0]
    have htlq : (0 : ℚ) < (tl : ℚ) := by exact_mod_cast htl
    have htlcq : (tl : ℚ) ≤ (r.cooking_time : ℚ) := by exact_mod_cast htlc
    have h1 : (1 : ℚ) ≤ (r.cooking_time : ℚ) / (tl : ℚ) :=
      (one_le_div htlq).mpr htlcq
    have h100 : (100 : ℚ) ≤ ((r.cooking_time : ℚ) / (tl : ℚ)) * 100 := by nlinarith
    rw [min_eq_left (by norm_num : (0 : ℚ) ≤ 100) ]
    rw [max_eq_left (by linarith : 100 - ((r.cooking_time : ℚ) / (tl : ℚ)) * 100 ≤ 0)]
    norm_num

theorem score_recipe_formula_witness :
    ∃ q, score_recipe ⟨"r", "x", 10, "m", "c", "i"⟩ [] 5 = some q ∧ 30 ≤ q ∧ q ≤ 100 := by
  obtain ⟨q, h1, _, h3, h4, _⟩ :=
    score_recipe_formula ⟨"r", "x", 10, "m", "c", "i"⟩ [] 5 (by decide) (by decide)
  exact ⟨q, h1, h3, h4⟩

/-- C5: with the recipe's ingredients, the user list and a positive time
limit fixed, `score_recipe` is monotonically non-increasing in the
recipe's cooking time. -/
theorem score_recipe_antitone_in_time (r : RecipeRecord) (u : List String)
    (t1 t2 tl : ℤ) (htl : 0 < tl) (h12 : t1 ≤ t2) (q1 q2 : ℚ)
    (h1 : score_recipe {r with cooking_time := t1} u tl = some q1)
    (h2 : score_recipe {r with cooking_time := t2} u tl = some q2) :
    q2 ≤ q1 := by
  have htl0 : tl ≠ 0 := ne_of_gt htl
  rw [score_eval _ u tl _ rfl htl0] at h1 h2
  have hq1 := Option.some.inj h1
  have hq2 := Option.some.inj h2
  have htlq : (0 : ℚ) < (tl : ℚ) := by exact_mod_cast htl
  have h12q : ((t1 : ℚ)) ≤ (t2 : ℚ) := by exact_mod_cast h12
  have hdiv : ((t1 : ℚ)) / (tl : ℚ) ≤ ((t2 : ℚ)) / (tl : ℚ) := by gcongr
  have e1 : ({r with cooking_time := t1} : RecipeRecord).cooking_time = t1 := rfl
  have e2 : ({r with cooking_time := t2} : RecipeRecord).cooking_time = t2 := rfl
  have e3 : ({r with cooking_time := t1} : RecipeRecord).ingredients = r.ingredients := rfl
  have e4 : ({r with cooking_time := t2} : RecipeRecord).ingredients = r.ingredients := rfl
  rw [e1, e3] at hq1
  rw [e2, e4] at hq2
  rw [← hq1, ← hq2]
  have hsub : (100 : ℚ) - ((t2 : ℚ)) / (tl : ℚ) * 100 ≤ 100 - ((t1 : ℚ)) / (tl : ℚ) * 100 := by
    nlinarith
  have hmax : max 0 ((100 : ℚ) - ((t2 : ℚ)) / (tl : ℚ) * 100) ≤
      max 0 (100 - ((t1 : ℚ)) / (tl : ℚ) * 100) :=
    max_le_max (le_refl 0) hsub
  have hB : max 0 ((100 : ℚ) - ((t2 : ℚ)) / (tl : ℚ) * 100) * (0.3 : ℚ) ≤
      max 0 (100 - ((t1 : ℚ)) / (tl : ℚ) * 100) * (0.3 : ℚ) :=
    mul_le_mul_of_nonneg_right hmax (by norm_num)
  refine min_le_min ?_ (le_refl 100)
  linarith

theorem score_recipe_antitone_in_time_witness : (30 : ℚ) ≤ 45 := by
  have h1 : score_recipe {(⟨"r", "x", 0, "m", "c", "i"⟩ : RecipeRecord) with
      cooking_time := (5 : ℤ)} [] 10 = some 45 := by
    rw [score_eval _ _ _ 0
      (by rw [overlap_eval ["x"] 0 1 (by decide) (by decide) (by decide)]; norm_num)
      (by decide)]
    norm_num
  have h2 : score_recipe {(⟨"r", "x", 0, "m", "c", "i"⟩ : RecipeRecord) with
      cooking_time := (10 : ℤ)} [] 10 = some 30 := by
    rw [score_eval _ _ _ 0
      (by rw [overlap_eval ["x"] 0 1 (by decide) (by decide) (by decide)]; norm_num)
      (by decide)]
    norm_num
  exact score_recipe_antitone_in_time ⟨"r", "x", 0, "m", "c", "i"⟩ [] 5 10 10
    (by decide) (by decide) 45 30 h1 h2

/-- C3 counterexample: a negative time limit is not rejected; the scorer
silently returns the numeric score 100 for `timeLimit = -5`. -/
theorem score_recipe_negative_limit_counterexample :
    score_recipe ⟨"r", "x", 10, "m", "c", "i"⟩ [] (-5) = some 100 := by
  rw [score_eval _ _ _ 0
    (by rw [overlap_eval ["x"] 0 1 (by decide) (by decide) (by decide)]; norm_num)
    (by decide)]
  norm_num

/-- C3 (amended): `score_recipe` with `timeLimit = 0` raises the division
error (modelled as `none`) rather than returning a numeric score, but any
nonzero time limit — negative ones included — yields a numeric score: zero
is rejected only through the division, and negative limits are not
rejected at all. -/
theorem score_recipe_zero_limit_raises (r : RecipeRecord) (u : List String) (tl : ℤ) :
    (tl = 0 → score_recipe r u tl = none) ∧
    (tl ≠ 0 → ∃ q, score_recipe r u tl = some q) := by
  constructor
  · intro h
    simp [score_recipe, h]
  · intro h
    exact ⟨_, score_eval r u tl _ rfl h⟩

theorem score_recipe_zero_limit_raises_witness :
    score_recipe ⟨"r", "x", 10, "m", "c", "i"⟩ [] 0 = none :=
  (score_recipe_zero_limit_raises ⟨"r", "x", 10, "m", "c", "i"⟩ [] 0).1 rfl

/-- C7 counterexample: the empty recipe-ingredient string splits into one
empty piece, not zero pieces, so a user list containing the empty string
makes the overlap 100 rather than 0. -/
theorem overlap_empty_string_counterexample :
    calculate_ingredient_overlap "" [""] ≠ 0 ∧
    calculate_ingredient_overlap "" [""] = 100 := by
  have h : calculate_ingredient_overlap "" [""] = 100 := by
    rw [overlap_eval [""] 1 1 (by decide) (by decide) (by decide)]
    norm_num
  exact ⟨by rw [h]; norm_num, h⟩

/-- C7 (amended): applying the overlap to an empty recipe-ingredient
string never divides by zero (the empty string is one empty piece, so the
denominator is 1), and returns 0 for every user-ingredient list that does
not contain the empty string; a list containing `""` instead yields 100. -/
theorem overlap_empty_string (u : List String) (h : "" ∉ u) :
    calculate_ingredient_overlap "" u = 0 := by
  have hcount : List.countP (fun i => u.contains i) [""] = 0 := by
    simp [List.countP_cons, h]
  rw [overlap_eval [""] 0 1 (by decide) hcount (by decide)]
  norm_num

theorem overlap_empty_string_witness : calculate_ingredient_overlap "" ["tomato"] = 0 :=
  overlap_empty_string ["tomato"] (by decide)
